import Mathlib

/-!
Verification of the DNS application-level fragmentation proxies
(BII-Lab/DNS-layer-Fragmentation).

The development shallowly embeds the two Go handlers:

* the server-side fragmenter `frag` and `ServerProxy.ServeDNS`
  (ServerProxy main.go), and
* the client-side reassembler `ClientProxy.ServeDNS` with its helpers
  `SRVFAIL`, `wait_for_response` and `get_fragment_info`
  (ClientProxy/ClientProxy.go).

DNS messages are modelled as values: the wire codec of the miekg/dns
library is external to the repository, so a resource record carries an
abstract identity and its encoded size, and `Msg.len` models
`dns.Msg.Len()` additively (header, question section, then each record;
name compression is a declared non-goal of the source's packing).
An EDNS0 OPT record is modelled explicitly since the code inspects and
rewrites its option list.  Network I/O is modelled by passing the list
of datagrams a handler reads, and a handler returns the list of
messages it writes; the Go panic that `get_fragment_info` can raise on
short option data is modelled by `Option.none`.
-/

set_option maxRecDepth 100000

namespace DNSFrag

/-- One EDNS0 option: an option code plus its data octets
(`dns.EDNS0_LOCAL` with `Code` and `Data`). -/
structure EDNS0Option where
  code : Nat
  data : List Nat
deriving DecidableEq

/-- A resource record.  A non-OPT record (`plain`) keeps an abstract
identity `rrid` and its encoded size; the OPT pseudo-RR (`opt`) keeps
the advertised UDP payload size and its option list, because the code
copies and rewrites these fields. -/
inductive RR where
  | plain (rrid : Nat) (size : Nat)
  | opt (udpSize : Nat) (options : List EDNS0Option)
deriving DecidableEq

/-- Whether a record is the EDNS0 OPT pseudo-RR
(`r.Header().Rrtype == dns.TypeOPT`). -/
def RR.isOPT : RR → Bool
  | .opt _ _ => true
  | _ => false

/-- Encoded size of a record.  For OPT this is the fixed 11-octet
pseudo-RR shell plus, per option, a 4-octet code/length header and the
data octets, exactly as the wire format prescribes; for other records
the size is the abstract size carried by the record. -/
def RR.size : RR → Nat
  | .plain _ s => s
  | .opt _ os => 11 + (os.map (fun o => 4 + o.data.length)).sum

/-- A question-section entry: abstract identity plus encoded size. -/
structure Question where
  name : Nat
  qsize : Nat
deriving DecidableEq

/-- A DNS message: header fields, question section, and the three
record sections `Answer`, `Ns` (authority) and `Extra` (additional) of
`dns.Msg`.  `flags` lumps the header flag bits the code never touches
individually (AA, RA, Z, AD); RD and CD are kept separate because
`Msg.SetReply` copies them conditionally. -/
structure Msg where
  id : Nat
  response : Bool
  opcode : Nat
  truncated : Bool
  rd : Bool
  cd : Bool
  rcode : Nat
  flags : Nat
  question : List Question
  answer : List RR
  ns : List RR
  extra : List RR
deriving DecidableEq

/-- `dns.Msg.Len()`, modelled additively: 12-octet header, the
question entries, then every record of the three sections. -/
def Msg.len (m : Msg) : Nat :=
  12 + (m.question.map Question.qsize).sum
    + (m.answer.map RR.size).sum
    + (m.ns.map RR.size).sum
    + (m.extra.map RR.size).sum

/-- `dns.EDNS0LOCALSTART`: first code of the local/experimental EDNS0
option range. -/
def EDNS0LOCALSTART : Nat := 65001

/-- The capability-marker option code (query side). -/
def capCode : Nat := EDNS0LOCALSTART

/-- The fragment-descriptor option code (reply side),
`dns.EDNS0LOCALSTART + 1`. -/
def fragCode : Nat := EDNS0LOCALSTART + 1

/-- First OPT record of a record list (`Msg.IsEdns0()` scans `Extra`
front to back). -/
def firstOPT : List RR → Option RR
  | [] => none
  | r :: rest => if r.isOPT then some r else firstOPT rest

/-- Replace the first OPT record of a list by `f` applied to it
(models mutating through the pointer `Msg.IsEdns0()` returns). -/
def updateFirstOPT (f : RR → RR) : List RR → List RR
  | [] => []
  | r :: rest => if r.isOPT then f r :: rest else r :: updateFirstOPT f rest

/-- Remove the first OPT record, returning it together with the list
without it (the `for ofs, r := range remaining_extra` loop of `frag`
that saves `edns0_rr` and splices it out). -/
def extractFirstOPT : List RR → Option (RR × List RR)
  | [] => none
  | r :: rest =>
    if r.isOPT then some (r, rest)
    else (extractFirstOPT rest).map (fun p => (p.1, r :: p.2))

/-- First option with the fragment-descriptor code in an option list
(both proxies scan `opt.Option` front to back and stop at the first
match). -/
def findFragOption : List EDNS0Option → Option EDNS0Option
  | [] => none
  | o :: rest => if o.code = fragCode then some o else findFragOption rest

/-! ### The fragmenter (ServerProxy `frag`) -/

/-- The per-fragment OPT record: `dns.Copy(edns0_rr)` with the fresh
`EDNS0_LOCAL` option (code `EDNS0LOCALSTART+1`, placeholder data
`[0,0]`) appended to its option list. -/
def addFragPlaceholder : RR → RR
  | .opt u os => .opt u (os ++ [⟨fragCode, [0, 0]⟩])
  | r => r

/-- A freshly started fragment: shallow copy of the reply header with
empty sections, whose additional section holds only the OPT copy. -/
def freshFrag (R : Msg) (e : RR) : Msg :=
  { R with answer := [], ns := [], extra := [addFragPlaceholder e] }

/-- The single truncated reply of the no-progress case: original
header with the TC flag set and all three record sections empty. -/
def tcMsg (R : Msg) : Msg :=
  { R with truncated := true, answer := [], ns := [], extra := [] }

/-- Fill the answer section greedily: append the head of the queue,
keep it if the fragment still encodes in at most 512 octets, otherwise
drop it again and stop (first inner loop of `frag`). -/
def fillAnswer : Msg → List RR → Msg × List RR
  | m, [] => (m, [])
  | m, r :: rest =>
    let m2 : Msg := { m with answer := m.answer ++ [r] }
    if m2.len ≤ 512 then fillAnswer m2 rest else (m, r :: rest)

/-- Greedy fill of the authority section (second inner loop of
`frag`). -/
def fillNs : Msg → List RR → Msg × List RR
  | m, [] => (m, [])
  | m, r :: rest =>
    let m2 : Msg := { m with ns := m.ns ++ [r] }
    if m2.len ≤ 512 then fillNs m2 rest else (m, r :: rest)

/-- Greedy fill of the additional section (third inner loop of
`frag`). -/
def fillExtra : Msg → List RR → Msg × List RR
  | m, [] => (m, [])
  | m, r :: rest =>
    let m2 : Msg := { m with extra := m.extra ++ [r] }
    if m2.len ≤ 512 then fillExtra m2 rest else (m, r :: rest)

/-- The outer fragment-building loop of `frag`.  Each round starts a
fresh fragment, fills the three sections in order from the remaining
queues, bails out with the single truncated reply (`Sum.inl`,
discarding the fragments built so far, as the early `return` does) if
the fragment took no record beyond the OPT copy, and otherwise appends
the fragment and continues until all queues are empty.  The Go loop is
`for {}`; since every round that does not return consumes at least one
queued record, a fuel of one more than the total queue length makes
the recursion structural without changing the computed value. -/
def fragLoop (R : Msg) (e : RR) :
    Nat → List RR → List RR → List RR → List Msg → Msg ⊕ List Msg
  | 0, _, _, _, acc => .inr acc
  | fuel + 1, qa, qn, qe, acc =>
    let p1 := fillAnswer (freshFrag R e) qa
    let p2 := fillNs p1.1 qn
    let p3 := fillExtra p2.1 qe
    let f := p3.1
    if f.answer.length = 0 ∧ f.ns.length = 0 ∧ f.extra.length = 1 then
      .inl { f with truncated := true, extra := [] }
    else if p1.2 = [] ∧ p2.2 = [] ∧ p3.2 = [] then
      .inr (acc ++ [f])
    else
      fragLoop R e fuel p1.2 p2.2 p3.2 (acc ++ [f])

/-- Fix-up of one fragment: in its first OPT record, set the data of
every option carrying the fragment-descriptor code to
`[byte(k), byte(n)]` (Go's `byte` conversion truncates mod 256). -/
def setFragData (k n : Nat) : RR → RR
  | .opt u os =>
    .opt u (os.map (fun o =>
      if o.code = fragCode then { o with data := [k % 256, n % 256] } else o))
  | r => r

/-- Fix-up of one fragment (body of the `for n, frag := range
all_frags` loop). -/
def fixupFrag (k n : Nat) (F : Msg) : Msg :=
  { F with extra := updateFirstOPT (setFragData k n) F.extra }

/-- Fix-up of the whole fragment list, numbering from `n`. -/
def fixupFrom (k : Nat) : Nat → List Msg → List Msg
  | _, [] => []
  | n, F :: rest => fixupFrag k n F :: fixupFrom k (n + 1) rest

/-- The fragmenter `frag`.  If the reply carries no OPT record the
function logs and returns the empty list (the `SetEdns0` call it makes
first only mutates the caller's reply, not the already-copied queues,
so the scan still fails).  Otherwise it runs the building loop on the
three section queues — the additional queue without the OPT — and
applies the sequence/total fix-up to the result; the single truncated
reply of the no-progress case is returned as-is, bypassing the
fix-up. -/
def frag (R : Msg) : List Msg :=
  match extractFirstOPT R.extra with
  | none => []
  | some (e, rest) =>
    match fragLoop R e (R.answer.length + R.ns.length + rest.length + 1)
        R.answer R.ns rest [] with
    | .inl tc => [tc]
    | .inr fs => fixupFrom fs.length 0 fs

/-! ### The server proxy handler -/

/-- Capability detection of `ServerProxy.ServeDNS`: the request's
first OPT record carries an option with code `EDNS0LOCALSTART`. -/
def client_supports_appfrag (request : Msg) : Bool :=
  match firstOPT request.extra with
  | some (.opt _ os) => os.any (fun o => o.code == capCode)
  | _ => false

/-- `ServerProxy.ServeDNS`, as the list of messages written to the
client, given the backend's reply to the proxied query (the UDP
exchange with the backend is external I/O and is abstracted by the
`response` argument; its error path is not modelled).  Without the
capability marker the raw reply is written; with it, each message of
`frag response` is written in order. -/
def serverServeDNS (request response : Msg) : List Msg :=
  if client_supports_appfrag request then frag response else [response]

/-! ### The client proxy (reassembler) -/

/-- `SRVFAIL`: the message written for serious problems,
`new(dns.Msg).SetRcode(req, dns.RcodeServerFailure)`.  `SetRcode` runs
`SetReply`, which copies the id and opcode, sets the response bit,
copies RD and CD only for opcode QUERY, copies the first question, and
leaves everything else zero; the rcode is then set to 2. -/
def SRVFAIL (req : Msg) : Msg :=
  { id := req.id
    response := true
    opcode := req.opcode
    truncated := false
    rd := if req.opcode = 0 then req.rd else false
    cd := if req.opcode = 0 then req.cd else false
    rcode := 2
    flags := 0
    question := req.question.take 1
    answer := []
    ns := []
    extra := [] }

/-- `get_fragment_info`: read `(total, seq)` from the first
fragment-descriptor option of the message's first OPT record, with
`(-1, -1)` when there is no OPT or no descriptor.  The Go code indexes
`Data[0]` and `Data[1]` without a length check; a descriptor with
fewer than two data octets makes it panic, modelled as `none`. -/
def get_fragment_info (m : Msg) : Option (Int × Int) :=
  match firstOPT m.extra with
  | some (.opt _ os) =>
    match findFragOption os with
    | some o =>
      match o.data with
      | d0 :: d1 :: _ => some ((d0 : Int), (d1 : Int))
      | _ => none
    | none => some (-1, -1)
  | _ => some (-1, -1)

/-- Well-formedness under which `get_fragment_info` cannot panic: the
first descriptor option of the first OPT record, if any, carries at
least two data octets. -/
def gfiSafe (m : Msg) : Bool :=
  match firstOPT m.extra with
  | some (.opt _ os) =>
    match findFragOption os with
    | some o => 2 ≤ o.data.length
    | none => true
  | _ => true

/-- `wait_for_response`: read datagrams until one carries the query
id, discarding mismatched ids; running out of datagrams models the
read error / timeout, for which the caller answers SRVFAIL. -/
def wait_for_response (qid : Nat) : List Msg → Option (Msg × List Msg)
  | [] => none
  | m :: rest => if m.id = qid then some (m, rest) else wait_for_response qid rest

/-- The sparse fragment mapping `frags` (`map[int]dns.Msg`):
association list with distinct keys, insertion overwriting. -/
def mapInsert (k : Int) (v : Msg) : List (Int × Msg) → List (Int × Msg)
  | [] => [(k, v)]
  | (k2, v2) :: rest =>
    if k = k2 then (k, v) :: rest else (k2, v2) :: mapInsert k v rest

/-- Map lookup `frags[n]`. -/
def mapGet (k : Int) : List (Int × Msg) → Option Msg
  | [] => none
  | (k2, v) :: rest => if k = k2 then some v else mapGet k rest

/-- Result of the fragment-collection loop: the Go code can panic
inside `get_fragment_info`, answer SRVFAIL after a read timeout, or
finish with the filled mapping. -/
inductive CollectResult where
  | panic
  | timeout
  | done (fm : List (Int × Msg))
deriving DecidableEq

/-- The collection loop `for len(frags) < num_frags`, fused with the
`wait_for_response` reads it performs: while the mapping is smaller
than `total`, read the next matching-id datagram, extract its sequence
number and store it (duplicates overwrite; a mismatched id is skipped;
an exhausted stream is the timeout). -/
def collectFrags (qid : Nat) (total : Int) (fm : List (Int × Msg)) :
    List Msg → CollectResult
  | [] => if (fm.length : Int) < total then .timeout else .done fm
  | m :: rest =>
    if (fm.length : Int) < total then
      if m.id = qid then
        match get_fragment_info m with
        | none => .panic
        | some (_, sq) => collectFrags qid total (mapInsert sq m fm) rest
      else collectFrags qid total fm rest
    else .done fm

/-- Appending one fragment to the reply being rebuilt: answers and
authority records are appended wholesale, additional records are
appended except OPT records (lines 170–177 of the client). -/
def appendFrag (acc f : Msg) : Msg :=
  { acc with
    answer := acc.answer ++ f.answer
    ns := acc.ns ++ f.ns
    extra := acc.extra ++ f.extra.filter (fun r => ! r.isOPT) }

/-- Indices visited by the rebuild loop `for n := 1; n < num_frags;
n++`. -/
def fragIndexList (total : Int) : List Int :=
  (List.range (total - 1).toNat).map (fun i => (i : Int) + 1)

/-- The rebuild loop: look each index up in the mapping and append the
fragment; a missing fragment aborts with SRVFAIL (`none`). -/
def rebuildLoop (fm : List (Int × Msg)) : Msg → List Int → Option Msg
  | acc, [] => some acc
  | acc, n :: rest =>
    match mapGet n fm with
    | none => none
    | some f => rebuildLoop fm (appendFrag acc f) rest

/-- The client's advertised buffer size: the UDP size of the query's
OPT record, or 512 when the query carries none (in which case the
proxy adds `SetEdns0(512, false)` before forwarding). -/
def clientBufSize (request : Msg) : Nat :=
  match firstOPT request.extra with
  | some (.opt u _) => u
  | _ => 512

/-- Truncation applied when the rebuilt reply exceeds the client's
buffer: TC flag set and all three record sections emptied. -/
def truncEmpty (m : Msg) : Msg :=
  { m with truncated := true, answer := [], ns := [], extra := [] }

/-- `ClientProxy.ServeDNS`, as the list of messages written back to
the stub, given the upstream datagrams the dedicated UDP socket
delivers (in order).  `none` models the process dying in the
`get_fragment_info` panic.  Connection setup and the upstream write
are abstracted; an exhausted datagram list models the read timeout. -/
def clientServeDNS (request : Msg) (responses : List Msg) : Option (List Msg) :=
  match wait_for_response request.id responses with
  | none => some [SRVFAIL request]
  | some (r0, rest) =>
    match get_fragment_info r0 with
    | none => none
    | some (nf, sq) =>
      if nf = -1 then some [r0]
      else
        match collectFrags request.id nf (mapInsert sq r0 []) rest with
        | .panic => none
        | .timeout => some [SRVFAIL request]
        | .done fm =>
          match mapGet 0 fm with
          | none => some [SRVFAIL request]
          | some base =>
            match rebuildLoop fm base (fragIndexList nf) with
            | none => some [SRVFAIL request]
            | some rebuilt =>
              if rebuilt.len > clientBufSize request then
                some [truncEmpty rebuilt]
              else some [rebuilt]

/-! ### Reassembly of a fragment sequence and auxiliary predicates -/

/-- Reassembling an ordered fragment sequence the way the client's
rebuild loop does when `frags[i]` holds the fragment with sequence
number `i`: fragment 0 is the base and each following fragment is
appended with `appendFrag`. -/
def reassemble : List Msg → Option Msg
  | [] => none
  | base :: rest => some (rest.foldl appendFrag base)

/-- Strip every fragment-descriptor option from an OPT record (used to
compare a reassembled message with the original reply modulo the
transport option). -/
def stripFragCode : RR → RR
  | .opt u os => .opt u (os.filter (fun o => o.code ≠ fragCode))
  | r => r

/-- An OPT record carrying no fragment-descriptor option of its own
(every backend reply of the protocol's data model: the descriptor is
synthesized by the fragmenter). -/
def noFragCode : RR → Bool
  | .opt _ os => os.all (fun o => o.code ≠ fragCode)
  | _ => true

/-- A message without a fragment descriptor: no OPT record, or an OPT
record without a descriptor option — exactly the messages for which
`get_fragment_info` reports `(-1, -1)`. -/
def noDescriptor (m : Msg) : Bool :=
  match firstOPT m.extra with
  | some (.opt _ os) => (findFragOption os).isNone
  | _ => true

/-- The shape of a fragment after the three greedy fills of one round
of the building loop: the reply's header and question with the packed
records, the additional section led by the OPT copy. -/
def builtFrag (R : Msg) (e : RR) (ta tn te : List RR) : Msg :=
  { R with answer := ta, ns := tn, extra := addFragPlaceholder e :: te }

/-- A fragment produced by one round of the building loop: it shares
every header field and the question section with the reply, its
additional section starts with the OPT copy, and its encoded length is
either within the 512-octet bound or exactly that of an empty fragment
(nothing was packed). -/
def GoodFrag (R : Msg) (e : RR) (F : Msg) : Prop :=
  F.id = R.id ∧ F.response = R.response ∧ F.opcode = R.opcode ∧
  F.truncated = R.truncated ∧ F.rd = R.rd ∧ F.cd = R.cd ∧
  F.rcode = R.rcode ∧ F.flags = R.flags ∧ F.question = R.question ∧
  (∃ t, F.extra = addFragPlaceholder e :: t) ∧
  (F.len ≤ 512 ∨ F.len = (freshFrag R e).len)

/-! ### Concrete messages used by witnesses and counterexamples -/

/-- Builder for a reply-shaped test message with the given answer
records, question entries and additional records. -/
def mkReply (ans : List RR) (q : List Question) (ex : List RR) : Msg :=
  { id := 1, response := true, opcode := 0, truncated := false, rd := false,
    cd := false, rcode := 0, flags := 0, question := q, answer := ans,
    ns := [], extra := ex }

/-- A bare OPT record advertising a 512-octet buffer. -/
def optE : RR := .opt 512 []

/-- Backend reply with three 250-octet answer records and an OPT:
packs into three fragments of 279 octets each. -/
def exReply3 : Msg :=
  mkReply [.plain 10 250, .plain 11 250, .plain 12 250] [] [optE]

/-- Backend reply whose single answer record is 700 octets: the
no-progress case of the fragmenter. -/
def exHugeRR : Msg := mkReply [.plain 7 700] [] [optE]

/-- Backend reply with no record besides the OPT but a 600-octet
question section. -/
def exBigQuestion : Msg := mkReply [] [⟨0, 600⟩] [optE]

/-- Backend reply with 256 one-per-fragment answer records: forces
256 fragments, whose descriptor octets wrap modulo 256. -/
def exBigReply : Msg := mkReply (List.replicate 256 (.plain 0 250)) [] [optE]

/-- A client query without an OPT record. -/
def exQuery : Msg :=
  { id := 1, response := false, opcode := 0, truncated := false, rd := true,
    cd := false, rcode := 0, flags := 0, question := [⟨5, 20⟩], answer := [],
    ns := [], extra := [] }

/-- Upstream fragment `[total 2, seq 0]` with a 250-octet answer. -/
def exFrag0 : Msg := mkReply [.plain 10 250] [] [.opt 512 [⟨fragCode, [2, 0]⟩]]

/-- Upstream fragment `[total 2, seq 1]` with a 250-octet answer. -/
def exFrag1 : Msg := mkReply [.plain 11 250] [] [.opt 512 [⟨fragCode, [2, 1]⟩]]

/-- Upstream fragment `[total 2, seq 0]` with a 100-octet answer. -/
def exSmall0 : Msg := mkReply [.plain 10 100] [] [.opt 512 [⟨fragCode, [2, 0]⟩]]

/-- Upstream fragment `[total 2, seq 1]` with a 100-octet answer. -/
def exSmall1 : Msg := mkReply [.plain 11 100] [] [.opt 512 [⟨fragCode, [2, 1]⟩]]

/-- Upstream fragment claiming `[total 2, seq 5]`: fragment 1 never
arrives. -/
def exFrag5 : Msg := mkReply [.plain 11 250] [] [.opt 512 [⟨fragCode, [2, 5]⟩]]

/-- Upstream response whose fragment-descriptor option carries no data
octets: reading it makes `get_fragment_info` panic. -/
def exBad : Msg := mkReply [] [] [.opt 512 [⟨fragCode, ([] : List Nat)⟩]]

/-- Query carrying the capability marker, as the client proxy sends
it. -/
def exServerReq : Msg :=
  mkReply [] [⟨5, 20⟩] [.opt 512 [⟨capCode, ([] : List Nat)⟩]]

/-- Backend reply without any OPT record. -/
def exServerResp : Msg := mkReply [.plain 10 50] [⟨5, 20⟩] []

/-! ## Basic length lemmas -/

theorem len_answer_append (m : Msg) (t : List RR) :
    ({ m with answer := m.answer ++ t } : Msg).len
      = m.len + (t.map RR.size).sum := by
  simp only [Msg.len, List.map_append, List.sum_append]
  omega

theorem len_ns_append (m : Msg) (t : List RR) :
    ({ m with ns := m.ns ++ t } : Msg).len = m.len + (t.map RR.size).sum := by
  simp only [Msg.len, List.map_append, List.sum_append]
  omega

theorem len_extra_append (m : Msg) (t : List RR) :
    ({ m with extra := m.extra ++ t } : Msg).len
      = m.len + (t.map RR.size).sum := by
  simp only [Msg.len, List.map_append, List.sum_append]
  omega

/-! ## Greedy fill: specifications -/

theorem fillAnswer_spec (q : List RR) : ∀ m : Msg, ∃ t rest,
    fillAnswer m q = ({ m with answer := m.answer ++ t }, rest) ∧
    q = t ++ rest ∧
    (({ m with answer := m.answer ++ t } : Msg).len ≤ 512 ∨ t = []) ∧
    (∀ r rs, rest = r :: rs →
      t ≠ [] ∨ 512 < ({ m with answer := m.answer ++ [r] } : Msg).len) := by
  induction q with
  | nil =>
    intro m
    exact ⟨[], [], by simp [fillAnswer], by simp, Or.inr rfl, by simp⟩
  | cons r q ih =>
    intro m
    by_cases h : ({ m with answer := m.answer ++ [r] } : Msg).len ≤ 512
    · obtain ⟨t, rest, heq, hsplit, hlen, hprog⟩ :=
        ih { m with answer := m.answer ++ [r] }
      refine ⟨r :: t, rest, ?_, by simp [hsplit], ?_, ?_⟩
      · simpa [fillAnswer, h, List.append_assoc] using heq
      · rcases hlen with hlen | hlen
        · exact Or.inl (by simpa [List.append_assoc] using hlen)
        · subst hlen
          exact Or.inl (by simpa using h)
      · intro r2 rs hrest
        exact Or.inl (by simp)
    · refine ⟨[], r :: q, by simp [fillAnswer, h], by simp, Or.inr rfl, ?_⟩
      intro r2 rs hrest
      obtain ⟨rfl, rfl⟩ : r2 = r ∧ rs = q := by
        constructor <;> injection hrest <;> simp_all
      exact Or.inr (by omega)

theorem fillNs_spec (q : List RR) : ∀ m : Msg, ∃ t rest,
    fillNs m q = ({ m with ns := m.ns ++ t }, rest) ∧
    q = t ++ rest ∧
    (({ m with ns := m.ns ++ t } : Msg).len ≤ 512 ∨ t = []) ∧
    (∀ r rs, rest = r :: rs →
      t ≠ [] ∨ 512 < ({ m with ns := m.ns ++ [r] } : Msg).len) := by
  induction q with
  | nil =>
    intro m
    exact ⟨[], [], by simp [fillNs], by simp, Or.inr rfl, by simp⟩
  | cons r q ih =>
    intro m
    by_cases h : ({ m with ns := m.ns ++ [r] } : Msg).len ≤ 512
    · obtain ⟨t, rest, heq, hsplit, hlen, hprog⟩ :=
        ih { m with ns := m.ns ++ [r] }
      refine ⟨r :: t, rest, ?_, by simp [hsplit], ?_, ?_⟩
      · simpa [fillNs, h, List.append_assoc] using heq
      · rcases hlen with hlen | hlen
        · exact Or.inl (by simpa [List.append_assoc] using hlen)
        · subst hlen
          exact Or.inl (by simpa using h)
      · intro r2 rs hrest
        exact Or.inl (by simp)
    · refine ⟨[], r :: q, by simp [fillNs, h], by simp, Or.inr rfl, ?_⟩
      intro r2 rs hrest
      obtain ⟨rfl, rfl⟩ : r2 = r ∧ rs = q := by
        constructor <;> injection hrest <;> simp_all
      exact Or.inr (by omega)

theorem fillExtra_spec (q : List RR) : ∀ m : Msg, ∃ t rest,
    fillExtra m q = ({ m with extra := m.extra ++ t }, rest) ∧
    q = t ++ rest ∧
    (({ m with extra := m.extra ++ t } : Msg).len ≤ 512 ∨ t = []) ∧
    (∀ r rs, rest = r :: rs →
      t ≠ [] ∨ 512 < ({ m with extra := m.extra ++ [r] } : Msg).len) := by
  induction q with
  | nil =>
    intro m
    exact ⟨[], [], by simp [fillExtra], by simp, Or.inr rfl, by simp⟩
  | cons r q ih =>
    intro m
    by_cases h : ({ m with extra := m.extra ++ [r] } : Msg).len ≤ 512
    · obtain ⟨t, rest, heq, hsplit, hlen, hprog⟩ :=
        ih { m with extra := m.extra ++ [r] }
      refine ⟨r :: t, rest, ?_, by simp [hsplit], ?_, ?_⟩
      · simpa [fillExtra, h, List.append_assoc] using heq
      · rcases hlen with hlen | hlen
        · exact Or.inl (by simpa [List.append_assoc] using hlen)
        · subst hlen
          exact Or.inl (by simpa using h)
      · intro r2 rs hrest
        exact Or.inl (by simp)
    · refine ⟨[], r :: q, by simp [fillExtra, h], by simp, Or.inr rfl, ?_⟩
      intro r2 rs hrest
      obtain ⟨rfl, rfl⟩ : r2 = r ∧ rs = q := by
        constructor <;> injection hrest <;> simp_all
      exact Or.inr (by omega)

/-! ## The building loop: one-step characterization and dichotomy -/

theorem fragLoop_succ_eq (R : Msg) (e : RR) (fuel : Nat)
    (qa qn qe : List RR) (acc : List Msg)
    {fA : Msg} {ra : List RR} (hA : fillAnswer (freshFrag R e) qa = (fA, ra))
    {fN : Msg} {rn : List RR} (hN : fillNs fA qn = (fN, rn))
    {fE : Msg} {re : List RR} (hE : fillExtra fN qe = (fE, re)) :
    fragLoop R e (fuel + 1) qa qn qe acc =
      if fE.answer.length = 0 ∧ fE.ns.length = 0 ∧ fE.extra.length = 1 then
        .inl { fE with truncated := true, extra := [] }
      else if ra = [] ∧ rn = [] ∧ re = [] then .inr (acc ++ [fE])
      else fragLoop R e fuel ra rn re (acc ++ [fE]) := by
  simp only [fragLoop, hA, hN, hE]

theorem builtFrag_answer (R : Msg) (e : RR) (ta tn te : List RR) :
    (builtFrag R e ta tn te).answer = ta := rfl

theorem builtFrag_ns (R : Msg) (e : RR) (ta tn te : List RR) :
    (builtFrag R e ta tn te).ns = tn := rfl

theorem builtFrag_extra (R : Msg) (e : RR) (ta tn te : List RR) :
    (builtFrag R e ta tn te).extra = addFragPlaceholder e :: te := rfl

theorem fragLoop_cases (R : Msg) (e : RR) (fuel : Nat) :
    ∀ qa qn qe acc, qa.length + qn.length + qe.length < fuel →
    fragLoop R e fuel qa qn qe acc = .inl (tcMsg R) ∨
    ∃ fs, fragLoop R e fuel qa qn qe acc = .inr (acc ++ fs) ∧ fs ≠ [] ∧
      (∀ F ∈ fs, GoodFrag R e F) ∧
      (fs.map Msg.answer).flatten = qa ∧
      (fs.map Msg.ns).flatten = qn ∧
      (fs.map (fun F => F.extra.tail)).flatten = qe := by
  induction fuel with
  | zero => intro qa qn qe acc h; omega
  | succ fuel ih =>
    intro qa qn qe acc h
    obtain ⟨ta, ra, hA, hsA, hlA, hpA⟩ := fillAnswer_spec qa (freshFrag R e)
    have hA1 : ({ freshFrag R e with
        answer := (freshFrag R e).answer ++ ta } : Msg) = builtFrag R e ta [] [] := rfl
    rw [hA1] at hA hlA
    obtain ⟨tn, rn, hN, hsN, hlN, hpN⟩ := fillNs_spec qn (builtFrag R e ta [] [])
    have hN1 : ({ builtFrag R e ta [] [] with
        ns := (builtFrag R e ta [] []).ns ++ tn } : Msg) = builtFrag R e ta tn [] := rfl
    rw [hN1] at hN hlN
    obtain ⟨te, re, hE, hsE, hlE, hpE⟩ := fillExtra_spec qe (builtFrag R e ta tn [])
    have hE1 : ({ builtFrag R e ta tn [] with
        extra := (builtFrag R e ta tn []).extra ++ te } : Msg)
        = builtFrag R e ta tn te := rfl
    rw [hE1] at hE hlE
    rw [fragLoop_succ_eq R e fuel qa qn qe acc hA hN hE]
    have hblen : (builtFrag R e ta tn te).len ≤ 512 ∨
        (builtFrag R e ta tn te).len = (freshFrag R e).len := by
      rcases hlE with hlE | rfl
      · exact Or.inl hlE
      rcases hlN with hlN | rfl
      · exact Or.inl hlN
      rcases hlA with hlA | rfl
      · exact Or.inl hlA
      · exact Or.inr rfl
    have hgoodb : GoodFrag R e (builtFrag R e ta tn te) :=
      ⟨rfl, rfl, rfl, rfl, rfl, rfl, rfl, rfl, rfl, ⟨te, rfl⟩, hblen⟩
    by_cases hTC : ta = [] ∧ tn = [] ∧ te = []
    · left
      obtain ⟨rfl, rfl, rfl⟩ := hTC
      rw [if_pos (by simp [builtFrag_answer, builtFrag_ns, builtFrag_extra])]
      rfl
    · rw [if_neg (by
        intro hcond
        refine hTC ⟨?_, ?_, ?_⟩
        · exact List.length_eq_zero.mp (by simpa [builtFrag_answer] using hcond.1)
        · exact List.length_eq_zero.mp (by simpa [builtFrag_ns] using hcond.2.1)
        · have h2 := hcond.2.2
          rw [builtFrag_extra] at h2
          simp only [List.length_cons, Nat.add_left_eq_self] at h2
          exact List.length_eq_zero.mp h2)]
      by_cases hDone : ra = [] ∧ rn = [] ∧ re = []
      · right
        obtain ⟨rfl, rfl, rfl⟩ := hDone
        rw [if_pos ⟨rfl, rfl, rfl⟩]
        refine ⟨[builtFrag R e ta tn te], rfl, by simp, ?_, ?_, ?_, ?_⟩
        · intro F hF
          rw [List.mem_singleton] at hF
          subst hF
          exact hgoodb
        · simpa [builtFrag_answer] using hsA.symm
        · simpa [builtFrag_ns] using hsN.symm
        · simpa [builtFrag_extra] using hsE.symm
      · rw [if_neg hDone]
        have hlt : ra.length + rn.length + re.length < fuel := by
          have e1 : qa.length = ta.length + ra.length := by
            rw [hsA, List.length_append]
          have e2 : qn.length = tn.length + rn.length := by
            rw [hsN, List.length_append]
          have e3 : qe.length = te.length + re.length := by
            rw [hsE, List.length_append]
          have hpos : 0 < ta.length + tn.length + te.length := by
            by_contra hc
            push_neg at hc
            exact hTC ⟨List.length_eq_zero.mp (by omega),
              List.length_eq_zero.mp (by omega), List.length_eq_zero.mp (by omega)⟩
          omega
        rcases ih ra rn re (acc ++ [builtFrag R e ta tn te]) hlt with h1 |
          ⟨fs, heq, hne, hgood, hja, hjn, hje⟩
        · exact Or.inl h1
        · right
          refine ⟨builtFrag R e ta tn te :: fs, ?_, by simp, ?_, ?_, ?_, ?_⟩
          · rw [heq]
            simp
          · intro F hF
            rcases List.mem_cons.mp hF with rfl | hF
            · exact hgoodb
            · exact hgood F hF
          · simp only [List.map_cons, List.flatten_cons, hja, builtFrag_answer]
            exact hsA.symm
          · simp only [List.map_cons, List.flatten_cons, hjn, builtFrag_ns]
            exact hsN.symm
          · simp only [List.map_cons, List.flatten_cons, hje, builtFrag_extra,
              List.tail_cons]
            exact hsE.symm

/-! ## The extracted OPT record and the fix-up -/

theorem extractFirstOPT_spec : ∀ (l : List RR) (e : RR) (rest : List RR),
    extractFirstOPT l = some (e, rest) →
    e.isOPT = true ∧ ∃ pre post, l = pre ++ e :: post ∧ rest = pre ++ post ∧
      ∀ r ∈ pre, r.isOPT = false := by
  intro l
  induction l with
  | nil => intro e rest h; exact Option.noConfusion h
  | cons r l ih =>
    intro e rest h
    by_cases hr : r.isOPT
    · rw [extractFirstOPT, if_pos hr] at h
      obtain ⟨rfl, rfl⟩ : r = e ∧ l = rest := by
        refine ⟨?_, ?_⟩ <;> injection h with h2 <;> [exact congrArg Prod.fst h2;
          exact congrArg Prod.snd h2]
      exact ⟨hr, [], l, rfl, rfl, by simp⟩
    · rw [extractFirstOPT, if_neg hr] at h
      cases hopt : extractFirstOPT l with
      | none => rw [hopt] at h; simp at h
      | some p =>
        rw [hopt] at h
        obtain ⟨rfl, rfl⟩ : p.1 = e ∧ r :: p.2 = rest := by
          refine ⟨?_, ?_⟩ <;> injection h with h2 <;> [exact congrArg Prod.fst h2;
            exact congrArg Prod.snd h2]
        obtain ⟨hopt1, pre, post, hl, hrest, hpre⟩ := ih p.1 p.2 (by rw [hopt])
        refine ⟨hopt1, r :: pre, post, by rw [hl]; rfl, by rw [hrest]; rfl, ?_⟩
        intro r2 hr2
        rcases List.mem_cons.mp hr2 with rfl | hr2
        · simpa using hr
        · exact hpre r2 hr2

theorem isOPT_addFragPlaceholder {e : RR} (he : e.isOPT = true) :
    (addFragPlaceholder e).isOPT = true := by
  cases e <;> simp_all [RR.isOPT, addFragPlaceholder]

theorem isOPT_setFragData (k n : Nat) {r : RR} (h : r.isOPT = true) :
    (setFragData k n r).isOPT = true := by
  cases r <;> simp_all [RR.isOPT, setFragData]

theorem fixupFrag_extra_cons (k n : Nat) {e : RR} (he : e.isOPT = true)
    {F : Msg} {t : List RR} (hF : F.extra = addFragPlaceholder e :: t) :
    fixupFrag k n F
      = { F with extra := setFragData k n (addFragPlaceholder e) :: t } := by
  rw [fixupFrag, hF]
  rw [updateFirstOPT, if_pos (isOPT_addFragPlaceholder he)]

theorem findFragOption_setter (k n : Nat) : ∀ os : List EDNS0Option,
    findFragOption (List.map (fun o : EDNS0Option =>
        if o.code = fragCode then { o with data := [k % 256, n % 256] } else o)
        (os ++ [{ code := fragCode, data := [0, 0] }]))
      = some { code := fragCode, data := [k % 256, n % 256] } := by
  intro os
  induction os with
  | nil => simp [findFragOption]
  | cons o os ih =>
    by_cases h : o.code = fragCode
    · simp [findFragOption, h]
    · simpa [findFragOption, h] using ih

theorem gfi_fixup (k n : Nat) {e : RR} (he : e.isOPT = true) {F : Msg}
    {t : List RR} (hF : F.extra = addFragPlaceholder e :: t) :
    get_fragment_info (fixupFrag k n F)
      = some (((k % 256 : Nat) : Int), ((n % 256 : Nat) : Int)) := by
  obtain ⟨u, os, rfl⟩ : ∃ u os, e = .opt u os := by
    cases e with
    | plain a b => simp [RR.isOPT] at he
    | opt u os => exact ⟨u, os, rfl⟩
  rw [fixupFrag_extra_cons k n he hF]
  simp only [get_fragment_info, addFragPlaceholder, setFragData, firstOPT,
    RR.isOPT, if_pos]
  rw [findFragOption_setter k n os]

theorem map_setter_of_noFragCode (k n : Nat) {os : List EDNS0Option}
    (hnf : os.all (fun o => o.code ≠ fragCode) = true) :
    os.map (fun o =>
      if o.code = fragCode then { o with data := [k % 256, n % 256] } else o) = os := by
  induction os with
  | nil => rfl
  | cons o os ih =>
    simp only [List.all_cons, Bool.and_eq_true] at hnf
    simp only [List.map_cons, if_neg (by simpa using hnf.1), ih hnf.2]

theorem fixupFrag_len (k n : Nat) {u : Nat} {os : List EDNS0Option}
    (hnf : noFragCode (.opt u os) = true) {F : Msg} {t : List RR}
    (hF : F.extra = addFragPlaceholder (.opt u os) :: t) :
    (fixupFrag k n F).len = F.len := by
  rw [fixupFrag_extra_cons k n (show (RR.opt u os).isOPT = true from rfl) hF]
  have hsz : (setFragData k n (addFragPlaceholder (RR.opt u os))).size
      = (addFragPlaceholder (RR.opt u os)).size := by
    simp only [setFragData, addFragPlaceholder, RR.size, List.map_append,
      map_setter_of_noFragCode k n (by simpa [noFragCode] using hnf)]
    simp
  simp only [Msg.len, hF, List.map_cons, hsz]

theorem strip_setFrag (k n : Nat) {u : Nat} {os : List EDNS0Option}
    (hnf : noFragCode (.opt u os) = true) :
    stripFragCode (setFragData k n (addFragPlaceholder (.opt u os))) = .opt u os := by
  have hall : ∀ o ∈ os, o.code ≠ fragCode := by
    intro o ho
    have h2 : os.all (fun o => o.code ≠ fragCode) = true := hnf
    simpa using List.all_eq_true.mp h2 o ho
  have hfil : os.filter (fun o : EDNS0Option => o.code ≠ fragCode) = os :=
    List.filter_eq_self.mpr (by intro a ha; simpa using hall a ha)
  simp only [setFragData, addFragPlaceholder, stripFragCode, List.map_append,
    @map_setter_of_noFragCode k n os hnf]
  simp [List.filter_append, hfil]
  exact hall

theorem strip_nonOPT {r : RR} (h : r.isOPT = false) : stripFragCode r = r := by
  cases r <;> simp_all [RR.isOPT, stripFragCode]

theorem fixupFrag_answer (k n : Nat) (F : Msg) :
    (fixupFrag k n F).answer = F.answer := rfl

theorem fixupFrag_ns (k n : Nat) (F : Msg) : (fixupFrag k n F).ns = F.ns := rfl

theorem fixupFrag_truncated (k n : Nat) (F : Msg) :
    (fixupFrag k n F).truncated = F.truncated := rfl

theorem fixupFrom_length (k : Nat) : ∀ (n : Nat) (fs : List Msg),
    (fixupFrom k n fs).length = fs.length := by
  intro n fs
  induction fs generalizing n with
  | nil => rfl
  | cons F fs ih => simp [fixupFrom, ih]

theorem fixupFrom_map_answer (k : Nat) : ∀ (n : Nat) (fs : List Msg),
    (fixupFrom k n fs).map Msg.answer = fs.map Msg.answer := by
  intro n fs
  induction fs generalizing n with
  | nil => rfl
  | cons F fs ih => simp [fixupFrom, ih, fixupFrag_answer]

theorem fixupFrom_map_ns (k : Nat) : ∀ (n : Nat) (fs : List Msg),
    (fixupFrom k n fs).map Msg.ns = fs.map Msg.ns := by
  intro n fs
  induction fs generalizing n with
  | nil => rfl
  | cons F fs ih => simp [fixupFrom, ih, fixupFrag_ns]

theorem fixupFrom_mem (k : Nat) : ∀ (n : Nat) (fs : List Msg) (F : Msg),
    F ∈ fixupFrom k n fs → ∃ F2 ∈ fs, ∃ m, F = fixupFrag k m F2 := by
  intro n fs
  induction fs generalizing n with
  | nil => intro F hF; simp [fixupFrom] at hF
  | cons G fs ih =>
    intro F hF
    rcases List.mem_cons.mp hF with rfl | hF
    · exact ⟨G, List.mem_cons_self G fs, n, rfl⟩
    · obtain ⟨F2, hF2, m, rfl⟩ := ih (n + 1) F hF
      exact ⟨F2, List.mem_cons_of_mem G hF2, m, rfl⟩

/-! ## Reassembly: the folded append -/

theorem foldl_appendFrag (l : List Msg) : ∀ b : Msg,
    l.foldl appendFrag b = { b with
      answer := b.answer ++ (l.map Msg.answer).flatten,
      ns := b.ns ++ (l.map Msg.ns).flatten,
      extra := b.extra
        ++ (l.map (fun F => F.extra.filter (fun r => ! r.isOPT))).flatten } := by
  induction l with
  | nil => intro b; simp
  | cons F l ih =>
    intro b
    rw [List.foldl_cons, ih (appendFrag b F)]
    simp [appendFrag, List.append_assoc]

theorem foldl_appendFrag_answer (l : List Msg) (b : Msg) :
    (l.foldl appendFrag b).answer = b.answer ++ (l.map Msg.answer).flatten := by
  rw [foldl_appendFrag]

theorem foldl_appendFrag_ns (l : List Msg) (b : Msg) :
    (l.foldl appendFrag b).ns = b.ns ++ (l.map Msg.ns).flatten := by
  rw [foldl_appendFrag]

theorem foldl_appendFrag_extra (l : List Msg) (b : Msg) :
    (l.foldl appendFrag b).extra = b.extra
      ++ (l.map (fun F => F.extra.filter (fun r => ! r.isOPT))).flatten := by
  rw [foldl_appendFrag]

theorem foldl_appendFrag_id (l : List Msg) (b : Msg) :
    (l.foldl appendFrag b).id = b.id := by rw [foldl_appendFrag]

theorem foldl_appendFrag_response (l : List Msg) (b : Msg) :
    (l.foldl appendFrag b).response = b.response := by rw [foldl_appendFrag]

theorem foldl_appendFrag_opcode (l : List Msg) (b : Msg) :
    (l.foldl appendFrag b).opcode = b.opcode := by rw [foldl_appendFrag]

theorem foldl_appendFrag_truncated (l : List Msg) (b : Msg) :
    (l.foldl appendFrag b).truncated = b.truncated := by rw [foldl_appendFrag]

theorem foldl_appendFrag_rd (l : List Msg) (b : Msg) :
    (l.foldl appendFrag b).rd = b.rd := by rw [foldl_appendFrag]

theorem foldl_appendFrag_cd (l : List Msg) (b : Msg) :
    (l.foldl appendFrag b).cd = b.cd := by rw [foldl_appendFrag]

theorem foldl_appendFrag_rcode (l : List Msg) (b : Msg) :
    (l.foldl appendFrag b).rcode = b.rcode := by rw [foldl_appendFrag]

theorem foldl_appendFrag_flags (l : List Msg) (b : Msg) :
    (l.foldl appendFrag b).flags = b.flags := by rw [foldl_appendFrag]

theorem foldl_appendFrag_question (l : List Msg) (b : Msg) :
    (l.foldl appendFrag b).question = b.question := by rw [foldl_appendFrag]

/-! ## The fragmenter as a whole -/

theorem frag_inr_spec {R : Msg} {e : RR} {rest : List RR}
    (h1 : extractFirstOPT R.extra = some (e, rest))
    (hNoTC : ∀ F ∈ frag R, F.extra ≠ []) :
    ∃ fs, fragLoop R e (R.answer.length + R.ns.length + rest.length + 1)
        R.answer R.ns rest [] = .inr fs ∧
      frag R = fixupFrom fs.length 0 fs ∧ fs ≠ [] ∧
      (∀ F ∈ fs, GoodFrag R e F) ∧
      (fs.map Msg.answer).flatten = R.answer ∧
      (fs.map Msg.ns).flatten = R.ns ∧
      (fs.map (fun F => F.extra.tail)).flatten = rest := by
  rcases fragLoop_cases R e (R.answer.length + R.ns.length + rest.length + 1)
      R.answer R.ns rest [] (by omega) with htc |
    ⟨fs, heq, hne, hgood, hja, hjn, hje⟩
  · have hfrag : frag R = [tcMsg R] := by simp only [frag, h1, htc]
    have h2 := hNoTC (tcMsg R) (by rw [hfrag]; exact List.mem_singleton_self _)
    exact absurd rfl h2
  · have heq2 : fragLoop R e (R.answer.length + R.ns.length + rest.length + 1)
        R.answer R.ns rest [] = .inr fs := by simpa using heq
    refine ⟨fs, heq2, ?_, hne, hgood, hja, hjn, hje⟩
    simp only [frag, h1, heq2]

theorem fixupFrom_map_gfi (k : Nat) {e : RR} (he : e.isOPT = true) :
    ∀ (fs : List Msg) (n : Nat),
    (∀ F ∈ fs, ∃ t, F.extra = addFragPlaceholder e :: t) →
    (fixupFrom k n fs).map get_fragment_info
      = (List.range fs.length).map (fun i =>
          some (((k % 256 : Nat) : Int), (((n + i) % 256 : Nat) : Int))) := by
  intro fs
  induction fs with
  | nil => intro n h; rfl
  | cons F fs ih =>
    intro n h
    obtain ⟨t, hFt⟩ := h F (List.mem_cons_self F fs)
    rw [fixupFrom, List.map_cons, gfi_fixup k n he hFt,
      ih (n + 1) (fun G hG => h G (List.mem_cons_of_mem F hG)),
      List.length_cons, List.range_succ_eq_map, List.map_cons, List.map_map]
    refine congrArg₂ List.cons (by simp) ?_
    apply List.map_congr_left
    intro i hi
    simp only [Function.comp_apply]
    have harith : n + 1 + i = n + (i + 1) := by omega
    rw [harith]

theorem frag_map_gfi {R : Msg} {e : RR} {rest : List RR}
    (h1 : extractFirstOPT R.extra = some (e, rest))
    (hNoTC : ∀ F ∈ frag R, F.extra ≠ []) :
    (frag R).map get_fragment_info
      = (List.range (frag R).length).map (fun i =>
          some ((((frag R).length % 256 : Nat) : Int), ((i % 256 : Nat) : Int))) := by
  obtain ⟨fs, heq, hfrag, hne, hgood, -, -, -⟩ := frag_inr_spec h1 hNoTC
  have he : e.isOPT = true := (extractFirstOPT_spec _ _ _ h1).1
  have hext : ∀ F ∈ fs, ∃ t, F.extra = addFragPlaceholder e :: t := by
    intro F hF
    exact (hgood F hF).2.2.2.2.2.2.2.2.2.1
  rw [hfrag, fixupFrom_map_gfi fs.length he fs 0 hext, fixupFrom_length]
  apply List.map_congr_left
  intro i hi
  simp

theorem frag_truncated {R : Msg} {e : RR} {rest : List RR}
    (h1 : extractFirstOPT R.extra = some (e, rest))
    (hNoTC : ∀ F ∈ frag R, F.extra ≠ []) :
    ∀ F ∈ frag R, F.truncated = R.truncated := by
  obtain ⟨fs, heq, hfrag, hne, hgood, -, -, -⟩ := frag_inr_spec h1 hNoTC
  intro F hF
  rw [hfrag] at hF
  obtain ⟨F2, hF2, m, rfl⟩ := fixupFrom_mem _ _ _ F hF
  rw [fixupFrag_truncated]
  exact (hgood F2 hF2).2.2.2.1

theorem filter_extra_fixup (k m : Nat) {e : RR} (he : e.isOPT = true) {F : Msg}
    {t : List RR} (hF : F.extra = addFragPlaceholder e :: t)
    (ht : ∀ r ∈ t, r.isOPT = false) :
    (fixupFrag k m F).extra.filter (fun r => ! r.isOPT) = F.extra.tail := by
  rw [fixupFrag_extra_cons k m he hF, hF, List.tail_cons]
  have h2 : (setFragData k m (addFragPlaceholder e)).isOPT = true :=
    isOPT_setFragData k m (isOPT_addFragPlaceholder he)
  show List.filter (fun r => ! r.isOPT)
    (setFragData k m (addFragPlaceholder e) :: t) = t
  rw [List.filter_cons, if_neg (by simp [h2])]
  exact List.filter_eq_self.mpr (fun r hr => by simp [ht r hr])

theorem fixupFrom_map_filter (k : Nat) {e : RR} (he : e.isOPT = true) :
    ∀ (fs : List Msg) (n : Nat),
    (∀ F ∈ fs, ∃ t, F.extra = addFragPlaceholder e :: t) →
    (∀ F ∈ fs, ∀ r ∈ F.extra.tail, r.isOPT = false) →
    (fixupFrom k n fs).map (fun F => F.extra.filter (fun r => ! r.isOPT))
      = fs.map (fun F => F.extra.tail) := by
  intro fs
  induction fs with
  | nil => intro n h1 h2; rfl
  | cons F fs ih =>
    intro n h1 h2
    obtain ⟨t, hFt⟩ := h1 F (List.mem_cons_self F fs)
    have ht : ∀ r ∈ t, r.isOPT = false := by
      intro r hr
      exact h2 F (List.mem_cons_self F fs) r (by rw [hFt, List.tail_cons]; exact hr)
    rw [fixupFrom, List.map_cons, List.map_cons,
      filter_extra_fixup k n he hFt ht,
      ih (n + 1) (fun G hG => h1 G (List.mem_cons_of_mem F hG))
        (fun G hG => h2 G (List.mem_cons_of_mem F hG))]

/-! ## Client-side lemmas -/

theorem wait_for_response_sub (qid : Nat) : ∀ (l : List Msg) (r : Msg)
    (rest : List Msg), wait_for_response qid l = some (r, rest) →
    r ∈ l ∧ ∀ m ∈ rest, m ∈ l := by
  intro l
  induction l with
  | nil => intro r rest h; exact Option.noConfusion h
  | cons m l ih =>
    intro r rest h
    rw [wait_for_response] at h
    by_cases hm : m.id = qid
    · rw [if_pos hm] at h
      obtain ⟨rfl, rfl⟩ : m = r ∧ l = rest := by
        refine ⟨?_, ?_⟩ <;> injection h with h2 <;> [exact congrArg Prod.fst h2;
          exact congrArg Prod.snd h2]
      exact ⟨List.mem_cons_self _ _, fun m2 hm2 => List.mem_cons_of_mem _ hm2⟩
    · rw [if_neg hm] at h
      obtain ⟨h3, h4⟩ := ih r rest h
      exact ⟨List.mem_cons_of_mem _ h3,
        fun m2 hm2 => List.mem_cons_of_mem _ (h4 m2 hm2)⟩

theorem gfiSafe_some {m : Msg} (h : gfiSafe m = true) :
    ∃ p, get_fragment_info m = some p := by
  cases hfo : firstOPT m.extra with
  | none => exact ⟨(-1, -1), by simp [get_fragment_info, hfo]⟩
  | some r =>
    cases r with
    | plain a b => exact ⟨(-1, -1), by simp [get_fragment_info, hfo]⟩
    | opt u os =>
      cases hff : findFragOption os with
      | none => exact ⟨(-1, -1), by simp [get_fragment_info, hfo, hff]⟩
      | some o =>
        simp only [gfiSafe, hfo, hff] at h
        cases hd : o.data with
        | nil => rw [hd] at h; simp at h
        | cons d0 ds =>
          cases ds with
          | nil => rw [hd] at h; simp at h
          | cons d1 ds2 =>
            exact ⟨((d0 : Int), (d1 : Int)),
              by simp [get_fragment_info, hfo, hff, hd]⟩

theorem gfi_neg_one {m : Msg} {p : Int × Int}
    (h : get_fragment_info m = some p) (h1 : p.1 = -1) : p = (-1, -1) := by
  cases hfo : firstOPT m.extra with
  | none =>
    simp only [get_fragment_info, hfo, Option.some.injEq] at h
    exact h.symm
  | some r =>
    cases r with
    | plain a b =>
      simp only [get_fragment_info, hfo, Option.some.injEq] at h
      exact h.symm
    | opt u os =>
      cases hff : findFragOption os with
      | none =>
        simp only [get_fragment_info, hfo, hff, Option.some.injEq] at h
        exact h.symm
      | some o =>
        cases hd : o.data with
        | nil => simp [get_fragment_info, hfo, hff, hd] at h
        | cons d0 ds =>
          cases ds with
          | nil => simp [get_fragment_info, hfo, hff, hd] at h
          | cons d1 ds2 =>
            simp only [get_fragment_info, hfo, hff, hd, Option.some.injEq] at h
            subst h
            exfalso
            simp only [Prod.fst] at h1
            omega

theorem collect_no_panic (qid : Nat) (total : Int) :
    ∀ (stream : List Msg) (fm : List (Int × Msg)),
    (∀ m ∈ stream, gfiSafe m = true) →
    collectFrags qid total fm stream ≠ .panic := by
  intro stream
  induction stream with
  | nil =>
    intro fm hwf
    rw [collectFrags]
    split <;> simp
  | cons m rest ih =>
    intro fm hwf
    rw [collectFrags]
    by_cases hsz : (fm.length : Int) < total
    · rw [if_pos hsz]
      by_cases hid : m.id = qid
      · rw [if_pos hid]
        obtain ⟨p, hp⟩ := gfiSafe_some (hwf m (List.mem_cons_self _ _))
        rw [hp]
        exact ih (mapInsert p.2 m fm)
          (fun m2 hm2 => hwf m2 (List.mem_cons_of_mem _ hm2))
      · rw [if_neg hid]
        exact ih fm (fun m2 hm2 => hwf m2 (List.mem_cons_of_mem _ hm2))
    · rw [if_neg hsz]
      simp

theorem rebuildLoop_missing (fm : List (Int × Msg)) :
    ∀ (idx : List Int) (acc : Msg),
    (∃ n ∈ idx, mapGet n fm = none) → rebuildLoop fm acc idx = none := by
  intro idx
  induction idx with
  | nil => intro acc h; simp at h
  | cons n0 idx ih =>
    intro acc h
    obtain ⟨n, hn, hmiss⟩ := h
    rw [rebuildLoop]
    cases hg : mapGet n0 fm with
    | none => rfl
    | some f =>
      rcases List.mem_cons.mp hn with rfl | hn2
      · rw [hg] at hmiss; exact Option.noConfusion hmiss
      · exact ih (appendFrag acc f) ⟨n, hn2, hmiss⟩

theorem rebuildLoop_covers (fm : List (Int × Msg)) :
    ∀ (idx : List Int) (acc : Msg) (x : Msg),
    rebuildLoop fm acc idx = some x → ∀ n ∈ idx, mapGet n fm ≠ none := by
  intro idx acc x hx n hn hmiss
  rw [rebuildLoop_missing fm idx acc ⟨n, hn, hmiss⟩] at hx
  exact Option.noConfusion hx

/-! ## Claim theorems: the fragmenter -/

/-- C2 (amended): for a reply whose additional section holds an OPT
record that carries no fragment-descriptor option of its own, which
contains at least one record besides the OPT, and whose individual
records each fit in 512 octets together with the header and the OPT
copy (`freshFrag` is exactly header plus OPT copy), every message
returned by `frag` encodes in at most 512 octets.  The fix-up
preserves each fragment's length (`fixupFrag_len`), so the bound
checked during packing holds for the messages sent. -/
theorem c2_size_bound (R : Msg) (e : RR) (rest : List RR)
    (h1 : extractFirstOPT R.extra = some (e, rest))
    (hnf : noFragCode e = true)
    (hfit : ∀ r ∈ R.answer ++ R.ns ++ rest, (freshFrag R e).len + r.size ≤ 512)
    (hne : R.answer ++ R.ns ++ rest ≠ []) :
    ∀ F ∈ frag R, F.len ≤ 512 := by
  have he : e.isOPT = true := (extractFirstOPT_spec _ _ _ h1).1
  obtain ⟨u, os, rfl⟩ : ∃ u os, e = .opt u os := by
    cases e with
    | plain a b => simp [RR.isOPT] at he
    | opt u os => exact ⟨u, os, rfl⟩
  have hbase : (freshFrag R (RR.opt u os)).len ≤ 512 := by
    obtain ⟨r, hr⟩ := List.exists_mem_of_ne_nil _ hne
    have := hfit r hr
    omega
  intro F hF
  rcases fragLoop_cases R (RR.opt u os)
      (R.answer.length + R.ns.length + rest.length + 1)
      R.answer R.ns rest [] (by omega) with htc |
    ⟨fs, heq, hnefs, hgood, -, -, -⟩
  · have hfrag : frag R = [tcMsg R] := by simp only [frag, h1, htc]
    rw [hfrag, List.mem_singleton] at hF
    subst hF
    have h2 : (tcMsg R).len ≤ (freshFrag R (RR.opt u os)).len := by
      simp [Msg.len, tcMsg, freshFrag]
    omega
  · have heq2 : fragLoop R (RR.opt u os)
        (R.answer.length + R.ns.length + rest.length + 1)
        R.answer R.ns rest [] = .inr fs := by simpa using heq
    have hfrag : frag R = fixupFrom fs.length 0 fs := by
      simp only [frag, h1, heq2]
    rw [hfrag] at hF
    obtain ⟨F2, hF2, m, rfl⟩ := fixupFrom_mem _ _ _ F hF
    obtain ⟨-, -, -, -, -, -, -, -, -, ⟨t, hext⟩, hlen⟩ := hgood F2 hF2
    rw [fixupFrag_len fs.length m hnf hext]
    rcases hlen with h2 | h2
    · exact h2
    · omega

/-- C2 counterexample to the claim as stated: a reply whose only
record is the OPT (so the per-record hypothesis holds vacuously) but
whose question section is 600 octets is turned by `frag` into the
single truncated reply, which encodes in 612 octets — more than
512. -/
theorem c2_counterexample :
    extractFirstOPT exBigQuestion.extra = some (optE, []) ∧
    frag exBigQuestion = [tcMsg exBigQuestion] ∧
    512 < (tcMsg exBigQuestion).len := by decide

/-- C2 witness: the three-record reply `exReply3` satisfies the
hypotheses and its first fragment fits in 512 octets. -/
theorem c2_size_bound_witness :
    ((frag exReply3).headD (tcMsg exReply3)).len ≤ 512 :=
  c2_size_bound exReply3 optE [] (by decide) (by decide) (by decide)
    (by decide) _ (by decide)

/-- C4: whenever, at the start of filling a fragment, the head of
each still-pending queue on its own overflows 512 octets together
with the header and the OPT copy (so the fragment would keep only
the OPT copy), the building loop — from any state, in particular any
reachable one — returns the single truncated reply: TC flag set, all
three sections empty, no descriptor option (its additional section is
empty, so `get_fragment_info` reports none).  The second conjunct
instantiates this at the initial state: `frag` itself returns exactly
that one message. -/
theorem c4_single_rr_overflow :
    (∀ (R : Msg) (e : RR) (fuel : Nat) (qa qn qe : List RR) (acc : List Msg),
      0 < fuel →
      (∀ r t, qa = r :: t → 512 < (freshFrag R e).len + r.size) →
      (∀ r t, qn = r :: t → 512 < (freshFrag R e).len + r.size) →
      (∀ r t, qe = r :: t → 512 < (freshFrag R e).len + r.size) →
      fragLoop R e fuel qa qn qe acc = .inl (tcMsg R)) ∧
    (∀ (R : Msg) (e : RR) (rest : List RR),
      extractFirstOPT R.extra = some (e, rest) →
      (∀ r t, R.answer = r :: t → 512 < (freshFrag R e).len + r.size) →
      (∀ r t, R.ns = r :: t → 512 < (freshFrag R e).len + r.size) →
      (∀ r t, rest = r :: t → 512 < (freshFrag R e).len + r.size) →
      frag R = [tcMsg R] ∧ get_fragment_info (tcMsg R) = some (-1, -1)) := by
  have loopThm : ∀ (R : Msg) (e : RR) (fuel : Nat) (qa qn qe : List RR)
      (acc : List Msg), 0 < fuel →
      (∀ r t, qa = r :: t → 512 < (freshFrag R e).len + r.size) →
      (∀ r t, qn = r :: t → 512 < (freshFrag R e).len + r.size) →
      (∀ r t, qe = r :: t → 512 < (freshFrag R e).len + r.size) →
      fragLoop R e fuel qa qn qe acc = .inl (tcMsg R) := by
    intro R e fuel qa qn qe acc hfuel hqa hqn hqe
    cases fuel with
    | zero => omega
    | succ fuel =>
      have hA : fillAnswer (freshFrag R e) qa = (freshFrag R e, qa) := by
        cases qa with
        | nil => rfl
        | cons r t =>
          have hbig := hqa r t rfl
          rw [fillAnswer, if_neg]
          rw [len_answer_append]
          simp
          omega
      have hN : fillNs (freshFrag R e) qn = (freshFrag R e, qn) := by
        cases qn with
        | nil => rfl
        | cons r t =>
          have hbig := hqn r t rfl
          rw [fillNs, if_neg]
          rw [len_ns_append]
          simp
          omega
      have hE : fillExtra (freshFrag R e) qe = (freshFrag R e, qe) := by
        cases qe with
        | nil => rfl
        | cons r t =>
          have hbig := hqe r t rfl
          rw [fillExtra, if_neg]
          rw [len_extra_append]
          simp
          omega
      rw [fragLoop_succ_eq R e fuel qa qn qe acc hA hN hE,
        if_pos ⟨rfl, rfl, rfl⟩]
      rfl
  refine ⟨loopThm, ?_⟩
  intro R e rest h1 hqa hqn hqe
  refine ⟨?_, rfl⟩
  simp only [frag, h1,
    loopThm R e (R.answer.length + R.ns.length + rest.length + 1)
      R.answer R.ns rest [] (by omega) hqa hqn hqe]

/-- C4 witness: the reply with one 700-octet answer record is turned
into exactly one TC-flagged message with empty sections and no
descriptor. -/
theorem c4_single_rr_overflow_witness :
    frag exHugeRR = [tcMsg exHugeRR] ∧
    get_fragment_info (tcMsg exHugeRR) = some (-1, -1) :=
  c4_single_rr_overflow.2 exHugeRR optE [] (by decide)
    (by
      intro r t h
      injection h with h1 h2
      subst h1
      decide)
    (fun r t h => List.noConfusion h)
    (fun r t h => List.noConfusion h)

/-- C5 (amended): when the reply carries an OPT record and `frag`
splits it into fragments proper (every returned message still carries
its additional section, i.e. the truncated bail-out did not happen)
and the fragment count is at most 255, fragment `i` carries the
descriptor `(k, i)` with `k` the fragment count: seq numbers are
exactly `0..k-1` in order and every fragment carries the same total
`k`.  Beyond 255 fragments the single descriptor octets wrap modulo
256 (see the counterexample). -/
theorem c5_fragment_numbering (R : Msg) (e : RR) (rest : List RR)
    (h1 : extractFirstOPT R.extra = some (e, rest))
    (hNoTC : ∀ F ∈ frag R, F.extra ≠ [])
    (hk : (frag R).length ≤ 255) :
    (frag R).map get_fragment_info
      = (List.range (frag R).length).map
          (fun i : Nat => some (((frag R).length : Int), (i : Int))) := by
  rw [frag_map_gfi h1 hNoTC]
  apply List.map_congr_left
  intro i hi
  rw [List.mem_range] at hi
  rw [Nat.mod_eq_of_lt (show (frag R).length < 256 by omega),
    Nat.mod_eq_of_lt (show i < 256 by omega)]

/-- C5 witness: the three-fragment reply carries descriptors
`(3,0) (3,1) (3,2)`. -/
theorem c5_fragment_numbering_witness :
    (frag exReply3).map get_fragment_info
      = (List.range (frag exReply3).length).map
          (fun i : Nat => some (((frag exReply3).length : Int), (i : Int))) :=
  c5_fragment_numbering exReply3 optE [] (by decide) (by decide) (by decide)

/-- C5 counterexample to the claim as stated: fragmenting a reply
into 256 fragments makes `byte(256) = 0`, so fragment 0 carries the
descriptor `(0, 0)` — not the total 256 the claim requires. -/
theorem c5_counterexample :
    (frag exBigReply).length = 256 ∧
    get_fragment_info ((frag exBigReply).headD (tcMsg exBigReply))
      = some (0, 0) ∧
    get_fragment_info ((frag exBigReply).headD (tcMsg exBigReply))
      ≠ some (256, 0) := by decide

/-- C6 (amended): when more than 255 fragments are produced, the
fragmenter does not reject: it emits the fragments anyway, each
descriptor holding the totals and sequence numbers reduced modulo 256
(Go's `byte` conversion), and no message has its TC flag changed from
the reply's. -/
theorem c6_overflow (R : Msg) (e : RR) (rest : List RR)
    (h1 : extractFirstOPT R.extra = some (e, rest))
    (hNoTC : ∀ F ∈ frag R, F.extra ≠ [])
    (_hover : 255 < (frag R).length) :
    (frag R).map get_fragment_info
      = (List.range (frag R).length).map (fun i =>
          some ((((frag R).length % 256 : Nat) : Int), ((i % 256 : Nat) : Int)))
    ∧ ∀ F ∈ frag R, F.truncated = R.truncated :=
  ⟨frag_map_gfi h1 hNoTC, frag_truncated h1 hNoTC⟩

/-- C6 witness: the 256-record reply produces 256 fragments whose
descriptors wrap modulo 256. -/
theorem c6_overflow_witness :
    (frag exBigReply).map get_fragment_info
      = (List.range (frag exBigReply).length).map (fun i =>
          some ((((frag exBigReply).length % 256 : Nat) : Int),
            ((i % 256 : Nat) : Int))) :=
  (c6_overflow exBigReply optE [] (by decide) (by decide) (by decide)).1

/-- C6 counterexample to the claim as stated: a reply needing 256
fragments is not replaced by a single TC-flagged reply; `frag` emits
all 256 messages, none truncated, fragment 0 carrying the
overflowed descriptor `(0, 0)`. -/
theorem c6_counterexample :
    (frag exBigReply).length = 256 ∧
    (frag exBigReply).all (fun F => ! F.truncated) = true ∧
    get_fragment_info ((frag exBigReply).headD (tcMsg exBigReply))
      = some (0, 0) := by decide

/-- C1: for a reply that carries an OPT record (with no descriptor
option of its own and no second OPT, per the protocol's data model)
and that `frag` splits into fragments proper (no truncated bail-out:
every returned message keeps its additional section), reassembling
the fragment sequence as the client proxy's rebuild loop does —
fragment 0 as base, every later fragment appended with `appendFrag` —
yields a message that agrees with the reply on every header field,
the question section, the answer and authority sections (in order),
and whose additional section, once the synthesized fragment
descriptor is stripped from its OPT, is the reply's additional
section up to the position of the OPT (which moves to the front).
The reassembled OPT additionally carries the `FRAG_CODE` descriptor
`[k, 0]`, as the head of the additional section shows. -/
theorem c1_roundtrip (R : Msg) (e : RR) (rest : List RR)
    (h1 : extractFirstOPT R.extra = some (e, rest))
    (hOne : ∀ r ∈ rest, r.isOPT = false)
    (hnf : noFragCode e = true)
    (hNoTC : ∀ F ∈ frag R, F.extra ≠ []) :
    ∃ M, reassemble (frag R) = some M ∧
      M.id = R.id ∧ M.response = R.response ∧ M.opcode = R.opcode ∧
      M.truncated = R.truncated ∧ M.rd = R.rd ∧ M.cd = R.cd ∧
      M.rcode = R.rcode ∧ M.flags = R.flags ∧ M.question = R.question ∧
      M.answer = R.answer ∧ M.ns = R.ns ∧
      M.extra.head? = some (setFragData (frag R).length 0 (addFragPlaceholder e)) ∧
      List.Perm (M.extra.map stripFragCode) R.extra := by
  obtain ⟨fs, heq, hfrag, hne, hgood, hja, hjn, hje⟩ := frag_inr_spec h1 hNoTC
  obtain ⟨he, pre, post, hlR, hrest, hpre⟩ := extractFirstOPT_spec _ _ _ h1
  obtain ⟨u, os, rfl⟩ : ∃ u os, e = .opt u os := by
    cases e with
    | plain a b => simp [RR.isOPT] at he
    | opt u os => exact ⟨u, os, rfl⟩
  have he2 : (RR.opt u os).isOPT = true := rfl
  have htails : ∀ F ∈ fs, ∀ r ∈ F.extra.tail, r.isOPT = false := by
    intro F hF r hr
    refine hOne r ?_
    rw [← hje]
    exact List.mem_flatten.mpr ⟨F.extra.tail, List.mem_map_of_mem _ hF, hr⟩
  have hexts : ∀ F ∈ fs, ∃ t, F.extra = addFragPlaceholder (RR.opt u os) :: t :=
    fun F hF => (hgood F hF).2.2.2.2.2.2.2.2.2.1
  cases fs with
  | nil => exact absurd rfl hne
  | cons F0 fsr =>
    obtain ⟨hid0, hresp0, hop0, htr0, hrd0, hcd0, hrc0, hfl0, hq0, ⟨t0, hext0⟩, -⟩ :=
      hgood F0 (List.mem_cons_self _ _)
    have hk : (frag R).length = (F0 :: fsr).length := by
      rw [hfrag, fixupFrom_length]
    rw [hk]
    have hreas : reassemble (frag R)
        = some ((fixupFrom (F0 :: fsr).length 1 fsr).foldl appendFrag
            (fixupFrag (F0 :: fsr).length 0 F0)) := by
      rw [hfrag]
      rfl
    refine ⟨_, hreas, ?_, ?_, ?_, ?_, ?_, ?_, ?_, ?_, ?_, ?_, ?_, ?_, ?_⟩
    · rw [foldl_appendFrag_id]
      exact hid0
    · rw [foldl_appendFrag_response]
      exact hresp0
    · rw [foldl_appendFrag_opcode]
      exact hop0
    · rw [foldl_appendFrag_truncated]
      exact htr0
    · rw [foldl_appendFrag_rd]
      exact hrd0
    · rw [foldl_appendFrag_cd]
      exact hcd0
    · rw [foldl_appendFrag_rcode]
      exact hrc0
    · rw [foldl_appendFrag_flags]
      exact hfl0
    · rw [foldl_appendFrag_question]
      exact hq0
    · rw [foldl_appendFrag_answer, fixupFrom_map_answer, fixupFrag_answer]
      simpa using hja
    · rw [foldl_appendFrag_ns, fixupFrom_map_ns, fixupFrag_ns]
      simpa using hjn
    · rw [foldl_appendFrag_extra, fixupFrag_extra_cons (F0 :: fsr).length 0 he2 hext0]
      simp
    · rw [foldl_appendFrag_extra, fixupFrag_extra_cons (F0 :: fsr).length 0 he2 hext0,
        fixupFrom_map_filter (F0 :: fsr).length he2 fsr 1
          (fun F hF => hexts F (List.mem_cons_of_mem _ hF))
          (fun F hF => htails F (List.mem_cons_of_mem _ hF))]
      have hrest2 : t0 ++ (fsr.map (fun F => F.extra.tail)).flatten = pre ++ post := by
        rw [← hrest, ← hje]
        simp [hext0]
      dsimp only
      rw [List.cons_append, List.map_cons, hrest2,
        strip_setFrag (F0 :: fsr).length 0 hnf]
      have hmap_id : ∀ l : List RR, (∀ r ∈ l, r.isOPT = false) →
          l.map stripFragCode = l := by
        intro l hl
        induction l with
        | nil => rfl
        | cons a l ih =>
          rw [List.map_cons, strip_nonOPT (hl a (List.mem_cons_self _ _)),
            ih (fun r hr => hl r (List.mem_cons_of_mem _ hr))]
      rw [hmap_id (pre ++ post) (fun r hr => hOne r (by rw [hrest]; exact hr)), hlR]
      exact List.perm_middle.symm

/-- C3 (amended): when the originating query carries the capability
marker and the backend reply has no OPT record, the fragmenter
declines — `frag` returns the empty list — and the server proxy's
write loop therefore sends nothing at all to the client (it does not
forward the raw reply). -/
theorem c3_missing_backend_opt (request response : Msg)
    (hcap : client_supports_appfrag request = true)
    (hnoopt : extractFirstOPT response.extra = none) :
    frag response = [] ∧ serverServeDNS request response = [] := by
  have hf : frag response = [] := by simp only [frag, hnoopt]
  exact ⟨hf, by simp [serverServeDNS, hcap, hf]⟩

/-- C3 counterexample to the claim as stated: with the capability
marker present and an OPT-less backend reply, the server proxy writes
no message — in particular it does not forward the raw reply. -/
theorem c3_counterexample :
    serverServeDNS exServerReq exServerResp = [] ∧
    serverServeDNS exServerReq exServerResp ≠ [exServerResp] := by decide

/-- C3 witness: concrete marker-carrying query and OPT-less reply. -/
theorem c3_missing_backend_opt_witness :
    frag exServerResp = [] ∧ serverServeDNS exServerReq exServerResp = [] :=
  c3_missing_backend_opt exServerReq exServerResp (by decide) (by decide)

/-- C7: on the completed-reassembly path, the client proxy delivers
the rebuilt message truncated-and-emptied exactly when its encoded
length exceeds the client's advertised buffer, and as-is otherwise;
and the advertised buffer is 512 when the original query carried no
OPT record. -/
theorem c7_buffer_enforcement :
    (∀ (request : Msg) (responses : List Msg) (r0 : Msg) (rest : List Msg)
      (nf sq : Int) (fm : List (Int × Msg)) (base rebuilt : Msg),
      wait_for_response request.id responses = some (r0, rest) →
      get_fragment_info r0 = some (nf, sq) →
      nf ≠ -1 →
      collectFrags request.id nf (mapInsert sq r0 []) rest = .done fm →
      mapGet 0 fm = some base →
      rebuildLoop fm base (fragIndexList nf) = some rebuilt →
      clientServeDNS request responses
        = some [if rebuilt.len > clientBufSize request then truncEmpty rebuilt
            else rebuilt]) ∧
    (∀ request : Msg, firstOPT request.extra = none →
      clientBufSize request = 512) := by
  constructor
  · intro request responses r0 rest nf sq fm base rebuilt hwait hgfi hnf hcol
      hget hreb
    simp only [clientServeDNS, hwait, hgfi, if_neg hnf, hcol, hget, hreb]
    split <;> rfl
  · intro request h
    rw [clientBufSize, h]

/-- C7 witness: two small fragments rebuild below the 512-octet
default buffer and are delivered as-is by the conditional. -/
theorem c7_buffer_enforcement_witness :
    clientServeDNS exQuery [exSmall0, exSmall1]
      = some [if (appendFrag exSmall0 exSmall1).len > clientBufSize exQuery
          then truncEmpty (appendFrag exSmall0 exSmall1)
          else appendFrag exSmall0 exSmall1] :=
  c7_buffer_enforcement.1 exQuery [exSmall0, exSmall1] exSmall0 [exSmall1] 2 0
    [(0, exSmall0), (1, exSmall1)] exSmall0 (appendFrag exSmall0 exSmall1)
    (by decide) (by decide) (by decide) (by decide) (by decide) (by decide)

/-- C8: when the collection loop finishes but fragment 0 is absent
from the mapping, or some fragment `n` with `1 ≤ n ≤ total-1` is
absent, the client proxy answers exactly one message: the SRVFAIL
reply, which carries the query's id, rcode 2, and empty record
sections. -/
theorem c8_missing_fragment_servfail :
    ∀ (request : Msg) (responses : List Msg) (r0 : Msg) (rest : List Msg)
      (nf sq : Int) (fm : List (Int × Msg)),
      wait_for_response request.id responses = some (r0, rest) →
      get_fragment_info r0 = some (nf, sq) →
      nf ≠ -1 →
      collectFrags request.id nf (mapInsert sq r0 []) rest = .done fm →
      (mapGet 0 fm = none ∨ ∃ n ∈ fragIndexList nf, mapGet n fm = none) →
      clientServeDNS request responses = some [SRVFAIL request] ∧
      (SRVFAIL request).id = request.id ∧ (SRVFAIL request).rcode = 2 ∧
      (SRVFAIL request).answer = [] ∧ (SRVFAIL request).ns = [] ∧
      (SRVFAIL request).extra = [] := by
  intro request responses r0 rest nf sq fm hwait hgfi hnf hcol hmiss
  refine ⟨?_, rfl, rfl, rfl, rfl, rfl⟩
  rcases hmiss with hm0 | ⟨n, hn, hmn⟩
  · simp only [clientServeDNS, hwait, hgfi, if_neg hnf, hcol, hm0]
  · cases hg0 : mapGet 0 fm with
    | none => simp only [clientServeDNS, hwait, hgfi, if_neg hnf, hcol, hg0]
    | some base =>
      have hreb : rebuildLoop fm base (fragIndexList nf) = none :=
        rebuildLoop_missing fm (fragIndexList nf) base ⟨n, hn, hmn⟩
      simp only [clientServeDNS, hwait, hgfi, if_neg hnf, hcol, hg0, hreb]

/-- C8 witness: fragments `[2,0]` and `[2,5]` fill the mapping but
leave fragment 1 missing; the proxy answers the SRVFAIL message. -/
theorem c8_missing_fragment_servfail_witness :
    clientServeDNS exQuery [exFrag0, exFrag5] = some [SRVFAIL exQuery] ∧
    (SRVFAIL exQuery).id = exQuery.id ∧ (SRVFAIL exQuery).rcode = 2 ∧
    (SRVFAIL exQuery).answer = [] ∧ (SRVFAIL exQuery).ns = [] ∧
    (SRVFAIL exQuery).extra = [] :=
  c8_missing_fragment_servfail exQuery [exFrag0, exFrag5] exFrag0 [exFrag5] 2 0
    [(0, exFrag0), (5, exFrag5)] (by decide) (by decide) (by decide) (by decide)
    (Or.inr ⟨1, by decide, by decide⟩)

/-- C9: for messages whose first descriptor option (if any) carries at
least two data octets, `get_fragment_info` is total (no out-of-bounds
read, i.e. never the panic value), and it reports `(-1, -1)` exactly
when the message has no OPT record or the OPT carries no descriptor
option.  The two-octet precondition is required: on a descriptor with
empty data, `get_fragment_info` reads past the data and panics, as
`exBad` shows. -/
theorem c9_get_fragment_info_safety :
    (∀ m : Msg, gfiSafe m = true →
      (∃ p, get_fragment_info m = some p) ∧
      (get_fragment_info m = some (-1, -1) ↔ noDescriptor m = true)) ∧
    get_fragment_info exBad = none := by
  refine ⟨?_, by decide⟩
  intro m hs
  refine ⟨gfiSafe_some hs, ?_, ?_⟩
  · intro h
    cases hfo : firstOPT m.extra with
    | none => simp [noDescriptor, hfo]
    | some r =>
      cases r with
      | plain a b => simp [noDescriptor, hfo]
      | opt u os =>
        cases hff : findFragOption os with
        | none => simp [noDescriptor, hfo, hff]
        | some o =>
          exfalso
          cases hd : o.data with
          | nil => simp [get_fragment_info, hfo, hff, hd] at h
          | cons d0 ds =>
            cases ds with
            | nil => simp [get_fragment_info, hfo, hff, hd] at h
            | cons d1 ds2 =>
              simp only [get_fragment_info, hfo, hff, hd, Option.some.injEq,
                Prod.mk.injEq] at h
              omega
  · intro h
    cases hfo : firstOPT m.extra with
    | none => simp [get_fragment_info, hfo]
    | some r =>
      cases r with
      | plain a b => simp [get_fragment_info, hfo]
      | opt u os =>
        cases hff : findFragOption os with
        | none => simp [get_fragment_info, hfo, hff]
        | some o =>
          exfalso
          simp [noDescriptor, hfo, hff] at h

/-- C9 witness: a proper fragment parses to a pair, and `(-1, -1)` is
equivalent to having no descriptor. -/
theorem c9_get_fragment_info_safety_witness :
    (∃ p, get_fragment_info exFrag0 = some p) ∧
    (get_fragment_info exFrag0 = some (-1, -1) ↔ noDescriptor exFrag0 = true) :=
  c9_get_fragment_info_safety.1 exFrag0 (by decide)

/-- C10 (amended): provided every upstream response's descriptor
option carries at least two data octets (otherwise the proxy dies in
`get_fragment_info`, see the counterexample), the client proxy
delivers exactly one message, and that message is one of: the SRVFAIL
reply; the first matching response verbatim (when it carries no
descriptor); or the reassembly built from fragment 0 with every
fragment `1..total-1` present in the mapping and appended whole —
possibly truncated-and-emptied by buffer enforcement.  No partially
reassembled message is ever delivered. -/
theorem c10_delivery (request : Msg) (responses : List Msg)
    (hwf : ∀ m ∈ responses, gfiSafe m = true) :
    ∃ out, clientServeDNS request responses = some [out] ∧
      (out = SRVFAIL request ∨
       (∃ r0 rest, wait_for_response request.id responses = some (r0, rest) ∧
         get_fragment_info r0 = some (-1, -1) ∧ out = r0) ∨
       (∃ r0 rest nf sq fm base rebuilt,
         wait_for_response request.id responses = some (r0, rest) ∧
         get_fragment_info r0 = some (nf, sq) ∧ nf ≠ -1 ∧
         collectFrags request.id nf (mapInsert sq r0 []) rest = .done fm ∧
         mapGet 0 fm = some base ∧
         rebuildLoop fm base (fragIndexList nf) = some rebuilt ∧
         (∀ n ∈ fragIndexList nf, mapGet n fm ≠ none) ∧
         out = (if rebuilt.len > clientBufSize request then truncEmpty rebuilt
           else rebuilt))) := by
  cases hwait : wait_for_response request.id responses with
  | none =>
    exact ⟨SRVFAIL request, by simp only [clientServeDNS, hwait], Or.inl rfl⟩
  | some p =>
    obtain ⟨r0, rest⟩ := p
    have hsub := wait_for_response_sub request.id responses r0 rest hwait
    obtain ⟨q, hq⟩ := gfiSafe_some (hwf r0 hsub.1)
    obtain ⟨nf, sq⟩ := q
    by_cases hnf : nf = -1
    · subst hnf
      have hq2 : get_fragment_info r0 = some (-1, -1) := by
        have h3 := gfi_neg_one hq rfl
        rw [hq, h3]
      refine ⟨r0, ?_, Or.inr (Or.inl ⟨r0, rest, rfl, hq2, rfl⟩)⟩
      simp only [clientServeDNS, hwait, hq2, if_pos]
    · cases hcol : collectFrags request.id nf (mapInsert sq r0 []) rest with
      | panic =>
        exact absurd hcol (collect_no_panic request.id nf rest (mapInsert sq r0 [])
          (fun m hm => hwf m (hsub.2 m hm)))
      | timeout =>
        refine ⟨SRVFAIL request, ?_, Or.inl rfl⟩
        simp only [clientServeDNS, hwait, hq, if_neg hnf, hcol]
      | done fm =>
        cases hg0 : mapGet 0 fm with
        | none =>
          refine ⟨SRVFAIL request, ?_, Or.inl rfl⟩
          simp only [clientServeDNS, hwait, hq, if_neg hnf, hcol, hg0]
        | some base =>
          cases hreb : rebuildLoop fm base (fragIndexList nf) with
          | none =>
            refine ⟨SRVFAIL request, ?_, Or.inl rfl⟩
            simp only [clientServeDNS, hwait, hq, if_neg hnf, hcol, hg0, hreb]
          | some rebuilt =>
            refine ⟨_, ?_, Or.inr (Or.inr ⟨r0, rest, nf, sq, fm, base, rebuilt,
              rfl, hq, hnf, hcol, hg0, hreb,
              rebuildLoop_covers fm (fragIndexList nf) base rebuilt hreb, rfl⟩)⟩
            simp only [clientServeDNS, hwait, hq, if_neg hnf, hcol, hg0, hreb]
            split <;> rfl

/-- C10 witness: a well-formed two-fragment exchange is delivered as
exactly one of the allowed outcomes. -/
theorem c10_delivery_witness :
    ∃ out, clientServeDNS exQuery [exFrag0, exFrag1] = some [out] ∧
      (out = SRVFAIL exQuery ∨
       (∃ r0 rest, wait_for_response exQuery.id [exFrag0, exFrag1]
           = some (r0, rest) ∧
         get_fragment_info r0 = some (-1, -1) ∧ out = r0) ∨
       (∃ r0 rest nf sq fm base rebuilt,
         wait_for_response exQuery.id [exFrag0, exFrag1] = some (r0, rest) ∧
         get_fragment_info r0 = some (nf, sq) ∧ nf ≠ -1 ∧
         collectFrags exQuery.id nf (mapInsert sq r0 []) rest = .done fm ∧
         mapGet 0 fm = some base ∧
         rebuildLoop fm base (fragIndexList nf) = some rebuilt ∧
         (∀ n ∈ fragIndexList nf, mapGet n fm ≠ none) ∧
         out = (if rebuilt.len > clientBufSize exQuery then truncEmpty rebuilt
           else rebuilt))) :=
  c10_delivery exQuery [exFrag0, exFrag1] (by decide)

/-- C10 counterexample to the claim as stated: a matching-id response
whose descriptor option has no data octets makes the handler die in
`get_fragment_info` — nothing at all is delivered, not one of the
four outcomes. -/
theorem c10_counterexample :
    exBad.id = exQuery.id ∧ clientServeDNS exQuery [exBad] = none := by decide

/-- C1 witness: the three-fragment reply round-trips: the rebuilt
message carries the original answers in order and its additional
section is the OPT plus descriptor. -/
theorem c1_roundtrip_witness :
    ∃ M, reassemble (frag exReply3) = some M ∧
      M.id = exReply3.id ∧ M.response = exReply3.response ∧
      M.opcode = exReply3.opcode ∧ M.truncated = exReply3.truncated ∧
      M.rd = exReply3.rd ∧ M.cd = exReply3.cd ∧
      M.rcode = exReply3.rcode ∧ M.flags = exReply3.flags ∧
      M.question = exReply3.question ∧
      M.answer = exReply3.answer ∧ M.ns = exReply3.ns ∧
      M.extra.head? = some (setFragData (frag exReply3).length 0
        (addFragPlaceholder optE)) ∧
      List.Perm (M.extra.map stripFragCode) exReply3.extra :=
  c1_roundtrip exReply3 optE [] (by decide) (by decide) (by decide) (by decide)

end DNSFrag
